import Mathlib

/-!
Verification of the ni-fpga-interface binding-generation pipeline.

A shallow embedding, in Lean 4, of the interface-extraction and
binding-generation pipeline of the `ni-fpga-interface` repository
(`ni-fpga-interface-build` crate plus the build module of the
`ni-fpga-interface` crate), together with theorems settling the frozen
claims about its specification.

Modelling conventions:
* Rust `&str` / `String` values are modelled as `List Char` (`CStr`);
  the string literals of the source appear as `"...".data`.
* A Rust panic (`unwrap`, `expect`, `panic!` in the source) is modelled
  by an `Option` result being `none`; a normal return is `some`.
* The `BTreeMap<LocationDefinition, u32>` used for `AddressSet` is
  modelled as an association list kept sorted (strictly increasing) by
  key, with `btInsert`/`btLookup` mirroring `BTreeMap::insert`/`get`;
  the derived `Ord` of `LocationDefinition` (lexicographic on
  `kind`, `name`, `datatype`; variant order for `AddressKind`) is
  modelled by a `LinearOrder` instance lifted along an injective
  encoding into `Nat ×ₗ (CStr ×ₗ CStr)`.
* The lang_c AST is modelled only to the depth the visitors inspect it.
-/

namespace NiFpga

/-- Rust strings, modelled as lists of characters. -/
abbrev CStr := List Char

/-! ## Naming-convention model: `address_definitions.rs` -/

/-- The type of register value we have found (`AddressKind` in
`address_definitions.rs`). -/
inductive AddressKind where
  | Control
  | Indicator
  | ControlArray
  | IndicatorArray
  | ControlArraySize
  | IndicatorArraySize
  | TargetToHostFifo
  | HostToTargetFifo
deriving DecidableEq, Repr, Fintype

/-- Rust `AddressKind::is_array`: whether the kind is one of the array types. -/
def AddressKind.isArray : AddressKind → Bool
  | .ControlArray | .IndicatorArray | .ControlArraySize | .IndicatorArraySize => true
  | _ => false

/-- Rust `AddressKind::with_size`: the size version of an array kind. -/
def AddressKind.withSize : AddressKind → AddressKind
  | .ControlArray => .ControlArraySize
  | .IndicatorArray => .IndicatorArraySize
  | k => k

/-- Rust `AddressKind::prefix`: the naming marker used in the C interface for
each kind (the source calls this method `prefix`, a reserved word here). -/
def AddressKind.marker : AddressKind → CStr
  | .Control => "Control".data
  | .Indicator => "Indicator".data
  | .ControlArray => "ControlArray".data
  | .IndicatorArray => "IndicatorArray".data
  | .ControlArraySize => "ControlArray".data
  | .IndicatorArraySize => "IndicatorArray".data
  | .TargetToHostFifo => "TargetToHostFifo".data
  | .HostToTargetFifo => "HostToTargetFifo".data

/-! ## The lang_c AST fragment the visitors inspect -/

/-- Model of `lang_c::ast::IntegerBase`. -/
inductive IntegerBase where
  | decimal
  | hexadecimal
  | octal
  | binary
deriving DecidableEq, Repr

/-- The fragment of `lang_c::ast::Constant` that is inspected:
an integer literal carries its base and its digit text (the base
marker such as `0x` is already stripped by the lang_c lexer). -/
inductive CConstant where
  | integer (base : IntegerBase) (number : CStr)
  | otherConstant
deriving DecidableEq, Repr

/-- The fragment of `lang_c::ast::Expression` that is inspected:
a constant, a string literal (lang_c stores a non-empty vector of
quoted chunks; we carry the first chunk and the rest), or anything
else. -/
inductive CExpression where
  | constant (c : CConstant)
  | stringLiteral (first : CStr) (rest : List CStr)
  | otherExpression
deriving DecidableEq, Repr

/-- One enumerator of a C `enum`: its identifier and its optional
initializer expression (`lang_c::ast::Enumerator`). -/
structure Enumerator where
  identifier : CStr
  expression : Option CExpression
deriving DecidableEq, Repr

/-! ## Constant evaluator: `value_from_discriminant` -/

/-- The radix chosen for each `IntegerBase` in `value_from_discriminant`. -/
def radixOf : IntegerBase → Nat
  | .decimal => 10
  | .hexadecimal => 16
  | .octal => 8
  | .binary => 2

/-- Rust `char::to_digit` restricted to what a radix ≤ 36 can use:
the numeric value of a digit character, `none` for a non-digit. -/
def charDigit (c : Char) : Option Nat :=
  if '0' ≤ c ∧ c ≤ '9' then some (c.toNat - '0'.toNat)
  else if 'a' ≤ c ∧ c ≤ 'z' then some (c.toNat - 'a'.toNat + 10)
  else if 'A' ≤ c ∧ c ≤ 'Z' then some (c.toNat - 'A'.toNat + 10)
  else none

/-- The loop of Rust `u32::from_str_radix`: consume digit characters,
accumulating `acc * radix + digit`, failing on a non-digit, a digit not
valid for the radix, or overflow past `u32`. -/
def fromStrRadixAux (radix : Nat) (acc : Nat) : CStr → Option Nat
  | [] => some acc
  | c :: rest =>
    match charDigit c with
    | none => none
    | some d =>
      if d < radix then
        if acc * radix + d < 2 ^ 32 then fromStrRadixAux radix (acc * radix + d) rest
        else none
      else none

/-- Rust `u32::from_str_radix` on an unsigned digit string: empty input
is an error, otherwise the digits are folded in the given radix. -/
def fromStrRadix (radix : Nat) (s : CStr) : Option Nat :=
  if s = [] then none else fromStrRadixAux radix 0 s

/-- Model of `value_from_discriminant` in `address_definitions.rs`: extract a
numeric value from the enum discriminant expression. Any shape other
than an integer constant panics (`none` here), as does a failing
`from_str_radix`. -/
def valueFromDiscriminant (discriminant : CExpression) : Option Nat :=
  match discriminant with
  | .constant (.integer base number) => fromStrRadix (radixOf base) number
  | .constant _ => none
  | _ => none

/-! ## The `LocationDefinition` key and its derived order -/

/-- Defines a register location (`LocationDefinition` in
`address_definitions_visitor.rs`). -/
structure LocationDefinition where
  kind : AddressKind
  name : CStr
  datatype : CStr
deriving DecidableEq, Repr

/-- The discriminant order of `AddressKind` (its variant declaration
order), used by the derived `Ord` of Rust. -/
def kindIdx : AddressKind → Nat
  | .Control => 0
  | .Indicator => 1
  | .ControlArray => 2
  | .IndicatorArray => 3
  | .ControlArraySize => 4
  | .IndicatorArraySize => 5
  | .TargetToHostFifo => 6
  | .HostToTargetFifo => 7

/-- Encoding of a `LocationDefinition` into a lexicographic triple,
mirroring the derived `Ord` (field order `kind`, `name`, `datatype`). -/
def ldKey (d : LocationDefinition) : Nat ×ₗ (CStr ×ₗ CStr) :=
  toLex (kindIdx d.kind, toLex (d.name, d.datatype))

theorem kindIdx_injective : ∀ a b, kindIdx a = kindIdx b → a = b := by decide

theorem ldKey_injective : Function.Injective ldKey := by
  intro a b h
  unfold ldKey at h
  have h' := congrArg ofLex h
  simp only [ofLex_toLex, Prod.mk.injEq] at h'
  obtain ⟨h1, h2⟩ := h'
  have h2' := congrArg ofLex h2
  simp only [ofLex_toLex, Prod.mk.injEq] at h2'
  cases a
  cases b
  simp_all
  exact kindIdx_injective _ _ h1

/-- The derived total order of `LocationDefinition`. -/
instance : LinearOrder LocationDefinition := LinearOrder.lift' ldKey ldKey_injective

/-! ## The `AddressSet`: a `BTreeMap` modelled as a sorted association list -/

/-- The set of registers the visitor returns
(`pub type AddressSet = BTreeMap<LocationDefinition, u32>`). -/
abbrev AddressSet := List (LocationDefinition × Nat)

/-- Rust `BTreeMap::insert`: place the binding at its ordered position,
overwriting an existing binding of the same key. -/
def btInsert (k : LocationDefinition) (v : Nat) : AddressSet → AddressSet
  | [] => [(k, v)]
  | (k', v') :: rest =>
    if k < k' then (k, v) :: (k', v') :: rest
    else if k = k' then (k, v) :: rest
    else (k', v') :: btInsert k v rest

/-- Rust `BTreeMap::get`: the value bound to a key, if any. -/
def btLookup (k : LocationDefinition) : AddressSet → Option Nat
  | [] => none
  | (k', v') :: rest => if k = k' then some v' else btLookup k rest

/-- The representation invariant of the `BTreeMap` model: keys strictly
increase along the list. -/
def SortedKeys (m : AddressSet) : Prop :=
  m.Pairwise fun p q => p.1 < q.1

instance : DecidablePred SortedKeys := fun m =>
  inferInstanceAs (Decidable (m.Pairwise _))

/-! ## String helpers used by the visitors (Rust `str` methods) -/

/-- Rust `str::strip_prefix`: the remainder after a leading pattern, or
`none` when the pattern does not lead the string. -/
def stripPre (pat s : CStr) : Option CStr :=
  if pat.isPrefixOf s then some (s.drop pat.length) else none

/-- Rust `str::strip_suffix`: the remainder after removing a trailing
pattern, or `none` when the pattern does not end the string. -/
def stripSuf (pat s : CStr) : Option CStr :=
  if pat.isSuffixOf s then some (s.take (s.length - pat.length)) else none

/-- The second component of Rust `str::rsplit_once(sep)`: the text after
the last occurrence of the separator, or `none` when the separator does
not occur. -/
def rsplitOnceSnd (sep : Char) (s : CStr) : Option CStr :=
  if s.contains sep then some ((s.reverse.takeWhile fun c => c ≠ sep).reverse) else none

/-! ## Address extractor: `address_definitions_visitor.rs` -/

/-- Model of `extract_type_from_start`: run through the kind options, most
specific first, and find the one whose marker starts the name. -/
def extractTypeFromStart (name : CStr) : Option AddressKind :=
  [AddressKind.ControlArray, AddressKind.IndicatorArray, AddressKind.Control,
    AddressKind.Indicator, AddressKind.TargetToHostFifo,
    AddressKind.HostToTargetFifo].find? fun kind => kind.marker.isPrefixOf name

/-- Model of `enum_name_to_types`: extract the register kind and what is left of
the enum type name. Both `unwrap`s of the source are `Option` binds. -/
def enumNameToTypes (name : CStr) : Option (AddressKind × CStr) := do
  let kind ← extractTypeFromStart name
  let typeName ← stripPre kind.marker name
  if kind.isArray ∧ ("Size".data.isSuffixOf name) then do
    let typeName ← stripSuf "Size".data typeName
    pure (kind.withSize, typeName)
  else
    pure (kind, typeName)

/-- Model of `control_indicator_name_from_full`: the text after the last `_` in
the enumerator name; the source `unwrap`s the `rsplit_once`, so a name
without an underscore panics. -/
def controlIndicatorNameFromFull (fullName : CStr) : Option CStr :=
  rsplitOnceSnd '_' fullName

/-- Model of `AddressDefinitionsVisitor::process_enum_type`: strip the interface
marker from the enum type name (the source `unwrap`s this), decode the
kind and datatype, then insert one binding per enumerator, evaluating
the enumerator's initializer (also `unwrap`ed by the source). -/
def processEnumType (visitorPre : CStr) (typeName : CStr)
    (enumerators : List Enumerator) (registers : AddressSet) : Option AddressSet := do
  let enumName ← stripPre visitorPre typeName
  let (kind, datatype) ← enumNameToTypes enumName
  enumerators.foldlM (fun regs variant => do
    let name ← controlIndicatorNameFromFull variant.identifier
    let expr ← variant.expression
    let value ← valueFromDiscriminant expr
    pure (btInsert ⟨kind, name, datatype⟩ value regs)) registers

/-- The fragment of `lang_c::ast::DeclarationSpecifier` the visitor
inspects: a typedef storage class, some other storage class, an `enum`
type specifier (with its enumerators), or some other type specifier. -/
inductive DeclarationSpecifier where
  | storageTypedef
  | storageOther
  | typeEnum (enumerators : List Enumerator)
  | typeOther
deriving DecidableEq, Repr

/-- The fragment of `lang_c::ast::DeclaratorKind` the visitors inspect. -/
inductive CDeclaratorKind where
  | identifier (name : CStr)
  | otherKind
deriving DecidableEq, Repr

/-- A top-level C declaration, to the depth `visit_declaration`
inspects it: its specifiers and the declarator kind of each of its
init-declarators. -/
structure CDeclaration where
  specifiers : List DeclarationSpecifier
  declarators : List CDeclaratorKind
deriving DecidableEq, Repr

/-- Model of `is_typedef`: whether some specifier is the typedef storage class. -/
def isTypedefDecl (d : CDeclaration) : Bool :=
  d.specifiers.any fun s =>
    match s with
    | .storageTypedef => true
    | _ => false

/-- Model of `get_typedef_name`: the first declarator that is an identifier. -/
def getTypedefName (d : CDeclaration) : Option CStr :=
  d.declarators.findSome? fun k =>
    match k with
    | .identifier name => some name
    | _ => none

/-- The visitor marker string built by
`AddressDefinitionsVisitor::new`: `NiFpga_{interface_name}_`. -/
def interfaceMarker (interfaceName : CStr) : CStr :=
  "NiFpga_".data ++ interfaceName ++ "_".data

/-- Model of `AddressDefinitionsVisitor::visit_declaration`: for a typedef with a
name, process every enum type specifier; anything else is skipped. -/
def visitDeclaration (visitorPre : CStr) (registers : AddressSet)
    (declaration : CDeclaration) : Option AddressSet :=
  if isTypedefDecl declaration then
    match getTypedefName declaration with
    | some name =>
      declaration.specifiers.foldlM (fun regs s =>
        match s with
        | .typeEnum enumerators => processEnumType visitorPre name enumerators regs
        | _ => pure regs) registers
    | none => some registers
  else
    some registers

/-- Running `AddressDefinitionsVisitor` over a whole translation unit:
fold `visit_declaration` over the top-level declarations, starting from
the empty map built by `AddressDefinitionsVisitor::new`. -/
def runAddressVisitor (interfaceName : CStr) (decls : List CDeclaration) :
    Option AddressSet :=
  decls.foldlM (visitDeclaration (interfaceMarker interfaceName)) []

/-! ## Binding generator: `registers_generator.rs` -/

/-- The Rust numeric types the generator can emit. -/
inductive RustType where
  | u8
  | u16
  | u32
  | u64
  | i8
  | i16
  | i32
  | i64
  | f32
  | f64
deriving DecidableEq, Repr

/-- Model of `type_string_to_type`: the fixed closed mapping from the vendor
type tag to a Rust type; an unknown tag panics (`none` here). -/
def typeStringToType (typeString : CStr) : Option RustType :=
  if typeString = "U8".data then some .u8
  else if typeString = "U16".data then some .u16
  else if typeString = "U32".data then some .u32
  else if typeString = "U64".data then some .u64
  else if typeString = "I8".data then some .i8
  else if typeString = "I16".data then some .i16
  else if typeString = "I32".data then some .i32
  else if typeString = "I64".data then some .i64
  else if typeString = "Sgl".data then some .f32
  else if typeString = "Dbl".data then some .f64
  else none

/-- One generated constant declaration, abstracting the emitted token
stream of `generate_address_definition`: `Register<T>`,
`ArrayRegister<T, N>`, `WriteFifo<T>` or `ReadFifo<T>`. -/
inductive GenDecl where
  | register (name : CStr) (ty : RustType) (address : Nat)
  | arrayRegister (name : CStr) (ty : RustType) (size : Nat) (address : Nat)
  | writeFifo (name : CStr) (ty : RustType) (address : Nat)
  | readFifo (name : CStr) (ty : RustType) (address : Nat)
deriving DecidableEq, Repr

/-- Model of `generate_address_definition`: the declarations emitted for one
definition. The datatype is mapped first (panicking on an unknown tag,
before the kind is examined, as in the source); an array kind without a
size panics (`expect`); the `*Size` kinds emit nothing. -/
def generateAddressDefinition (definition : LocationDefinition) (address : Nat)
    (arraySize : Option Nat) : Option (List GenDecl) := do
  let ty ← typeStringToType definition.datatype
  match definition.kind with
  | .Control | .Indicator => pure [.register definition.name ty address]
  | .ControlArray | .IndicatorArray =>
    match arraySize with
    | some size => pure [.arrayRegister definition.name ty size address]
    | none => none
  | .ControlArraySize | .IndicatorArraySize => pure []
  | .HostToTargetFifo => pure [.writeFifo definition.name ty address]
  | .TargetToHostFifo => pure [.readFifo definition.name ty address]

/-- The body of the loop of `generate_register_module` for one map
entry: scalar kinds emit directly; array kinds first look up the size
counterpart (`expect("Array size not found.")` on absence); size and
FIFO kinds `continue`. -/
def registerStep (registers : AddressSet) (tokens : List GenDecl)
    (entry : LocationDefinition × Nat) : Option (List GenDecl) :=
  match entry.1.kind with
  | .Control | .Indicator => do
    let ds ← generateAddressDefinition entry.1 entry.2 none
    pure (tokens ++ ds)
  | .ControlArray | .IndicatorArray =>
    match btLookup { entry.1 with kind := entry.1.kind.withSize } registers with
    | some arraySize => do
      let ds ← generateAddressDefinition entry.1 entry.2 (some arraySize)
      pure (tokens ++ ds)
    | none => none
  | .ControlArraySize | .IndicatorArraySize => pure tokens
  | .HostToTargetFifo | .TargetToHostFifo => pure tokens

/-- Model of `generate_register_module`: fold the loop body over the map in its
iteration order. -/
def generateRegisterModule (registers : AddressSet) : Option (List GenDecl) :=
  registers.foldlM (registerStep registers) []

/-- The body of the loop of `generate_fifo_module` for one map entry:
FIFO kinds emit; every other kind `continue`s. -/
def fifoStep (tokens : List GenDecl) (entry : LocationDefinition × Nat) :
    Option (List GenDecl) :=
  match entry.1.kind with
  | .HostToTargetFifo | .TargetToHostFifo => do
    let ds ← generateAddressDefinition entry.1 entry.2 none
    pure (tokens ++ ds)
  | _ => pure tokens

/-- Model of `generate_fifo_module`: fold the loop body over the map in its
iteration order. -/
def generateFifoModule (addresses : AddressSet) : Option (List GenDecl) :=
  addresses.foldlM fifoStep []

/-- Model of `InterfaceDescription::generate_rust_output` restricted to the two
generated groups: the registers module followed by the FIFOs module. -/
def generateRustOutput (registers : AddressSet) :
    Option (List GenDecl × List GenDecl) := do
  let regs ← generateRegisterModule registers
  let fifos ← generateFifoModule registers
  pure (regs, fifos)

/-! ## Signature extractor: `string_constant_visitor.rs` -/

/-- The fragment of `lang_c::ast::Initializer` the visitor inspects. -/
inductive CInitializer where
  | expression (e : CExpression)
  | otherInitializer
deriving DecidableEq, Repr

/-- One init-declarator: its declarator kind and optional initializer. -/
structure InitDeclarator where
  kind : CDeclaratorKind
  initializer : Option CInitializer
deriving DecidableEq, Repr

/-- Rust `str::trim_start_matches('"')` followed by
`trim_end_matches('"')`: drop every leading and trailing quote. -/
def trimQuotes (s : CStr) : CStr :=
  ((s.dropWhile fun c => c = '"').reverse.dropWhile fun c => c = '"').reverse

/-- Model of `string_constant_from_initializer`: the first chunk of a string
literal initializer with quotes trimmed, `none` for any other shape. -/
def stringConstantFromInitializer (initializer : CInitializer) : Option CStr :=
  match initializer with
  | .expression (.stringLiteral first _) => some (trimQuotes first)
  | .expression _ => none
  | .otherInitializer => none

/-- Model of `identifier_from_init_declarator`. -/
def identifierFromInitDeclarator (declarator : InitDeclarator) : Option CStr :=
  match declarator.kind with
  | .identifier name => some name
  | .otherKind => none

/-- The name `StringConstantVisitor::new` searches for:
`NiFpga_{prefix}_{suffix}`. -/
def stringVisitorName (pre suffixPart : CStr) : CStr :=
  "NiFpga_".data ++ pre ++ "_".data ++ suffixPart

/-- Model of `StringConstantVisitor::visit_init_declarator`: once a value is
held, keep it; otherwise, on a matching identifier with an initializer,
store whatever the initializer yields. -/
def visitInitDeclarator (target : CStr) (value : Option CStr)
    (declarator : InitDeclarator) : Option CStr :=
  if value.isSome then value
  else
    match identifierFromInitDeclarator declarator with
    | some name =>
      if name = target then
        match declarator.initializer with
        | some initializer => stringConstantFromInitializer initializer
        | none => value
      else value
    | none => value

/-- Running `StringConstantVisitor` over the init-declarators of a
translation unit in source order. -/
def runStringVisitor (target : CStr) (declarators : List InitDeclarator) :
    Option CStr :=
  declarators.foldl (visitInitDeclarator target) none

/-! ## Header pre-processing shim: `header_to_temp_no_includes` -/

/-- The fixed preamble text the shim writes before the header
(`common_types` in `bindings_parser.rs`), as a list of lines. -/
def commonTypesLines : List CStr :=
  ["".data,
    "typedef unsigned char uint8_t;".data,
    "typedef short int16_t;".data,
    "typedef int int32_t;".data,
    "typedef unsigned int uint32_t;".data,
    "typedef unsigned long long uint64_t;".data,
    "typedef long long int64_t;".data,
    "typedef uint8_t NiFpga_Bool;".data,
    "".data,
    "typedef struct NiFpga_FxpTypeInfo".data,
    "\x7b".data,
    "    NiFpga_Bool isSigned;".data,
    "    uint8_t wordLength;".data,
    "    int16_t integerWordLength;".data,
    "\x7d NiFpga_FxpTypeInfo;".data,
    "".data]

/-- The copy loop of `header_to_temp_no_includes`: write every line of
the header except those that start with `#include`. -/
def copyNonIncludeLines : List CStr → List CStr
  | [] => []
  | line :: rest =>
    if "#include".data.isPrefixOf line then copyNonIncludeLines rest
    else line :: copyNonIncludeLines rest

/-- Model of `header_to_temp_no_includes` at the level of file lines: the fixed
preamble followed by the filtered header lines. -/
def headerToTempNoIncludes (headerLines : List CStr) : List CStr :=
  commonTypesLines ++ copyNonIncludeLines headerLines

/-! ## Auxiliary definitions used by the theorems -/

/-- Whether a generated declaration belongs to the registers group
shapes (`Register` or `ArrayRegister`). -/
def GenDecl.isRegisterGroup : GenDecl → Bool
  | .register _ _ _ => true
  | .arrayRegister _ _ _ _ => true
  | _ => false

/-- Whether a generated declaration belongs to the FIFOs group shapes
(`WriteFifo` or `ReadFifo`). -/
def GenDecl.isFifoGroup : GenDecl → Bool
  | .writeFifo _ _ _ => true
  | .readFifo _ _ _ => true
  | _ => false

/-- Whether every character of the string is a digit valid for the
radix (the success condition of `u32::from_str_radix` digit handling). -/
def validDigits (radix : Nat) (s : CStr) : Bool :=
  s.all fun c =>
    match charDigit c with
    | some d => decide (d < radix)
    | none => false

/-- The numeric value a digit string denotes in a radix, written as the
specification reads (most significant digit first, Horner evaluation);
used to state that the constant evaluator is base-independent. -/
def specDigitsValue (radix : Nat) (s : CStr) : Nat :=
  s.foldl (fun acc c => acc * radix + (charDigit c).getD 0) 0

/-- The C4 example `AddressSet`: `ControlArrayU8_U8ControlArray =
0x18014` and `ControlArrayU8Size_U8ControlArray = 4`, inserted as the
visitor would. -/
def c4ExampleSet : AddressSet :=
  btInsert ⟨.ControlArraySize, "U8ControlArray".data, "U8".data⟩ 4
    (btInsert ⟨.ControlArray, "U8ControlArray".data, "U8".data⟩ 0x18014 [])

/-- The C2 counterexample declaration: a typedef'd enumeration whose
type name `Foo` does not carry the interface marker `NiFpga_Main_`. -/
def c2Declaration : CDeclaration :=
  ⟨[.storageTypedef,
      .typeEnum [⟨"Foo_Bar".data, some (.constant (.integer .decimal "1".data))⟩]],
    [.identifier "Foo".data]⟩

/-! ## Helper lemmas: folds in the `Option` monad -/

theorem foldlM_option_nil {α β : Type} (f : β → α → Option β) (a : β) :
    ([] : List α).foldlM f a = some a := rfl

theorem foldlM_option_cons {α β : Type} (f : β → α → Option β) (a : β) (x : α)
    (l : List α) :
    (x :: l).foldlM f a = (f a x).bind fun b => l.foldlM f b := rfl

/-- If some element of the list makes the step fail regardless of the
accumulator, the whole monadic fold fails. -/
theorem foldlM_option_none {α β : Type} (f : β → α → Option β) (x : α)
    (hx : ∀ acc, f acc x = none) :
    ∀ (l : List α) (a : β), x ∈ l → l.foldlM f a = none := by
  intro l
  induction l with
  | nil => intro a h; cases h
  | cons y t ih =>
    intro a h
    rw [foldlM_option_cons]
    rcases List.mem_cons.mp h with h | h
    · subst h
      rw [hx a]
      rfl
    · cases hy : f a y with
      | none => rfl
      | some b => exact ih b h

/-- An invariant preserved by every successful step of a monadic fold
holds of a successful fold's result. -/
theorem foldlM_option_invariant {α β : Type} (P : β → Prop) (f : β → α → Option β)
    (hstep : ∀ acc x res, P acc → f acc x = some res → P res) :
    ∀ (l : List α) (a res : β), l.foldlM f a = some res → P a → P res := by
  intro l
  induction l with
  | nil =>
    intro a res h ha
    rw [foldlM_option_nil] at h
    cases h
    exact ha
  | cons y t ih =>
    intro a res h ha
    rw [foldlM_option_cons] at h
    cases hy : f a y with
    | none => rw [hy] at h; cases h
    | some b =>
      rw [hy] at h
      exact ih b res h (hstep a y b ha hy)

/-- Elements of a successful fold's result are either inherited from
the accumulator or justified by the step that produced them. -/
theorem foldlM_option_mem {α γ : Type} (P : γ → Prop) (f : List γ → α → Option (List γ))
    (hstep : ∀ acc x res, f acc x = some res → ∀ y ∈ res, y ∈ acc ∨ P y) :
    ∀ (l : List α) (a res : List γ), l.foldlM f a = some res →
      (∀ y ∈ a, P y) → ∀ y ∈ res, P y := by
  intro l
  induction l with
  | nil =>
    intro a res h ha
    rw [foldlM_option_nil] at h
    cases h
    exact ha
  | cons x t ih =>
    intro a res h ha
    rw [foldlM_option_cons] at h
    cases hx : f a x with
    | none => rw [hx] at h; cases h
    | some b =>
      rw [hx] at h
      refine ih b res h ?_
      intro y hy
      rcases hstep a x b hx y hy with h' | h'
      · exact ha y h'
      · exact h'

/-! ## Helper lemmas: the sorted-map model -/

theorem btInsert_mem (k : LocationDefinition) (v : Nat) :
    ∀ (m : AddressSet) (p : LocationDefinition × Nat),
      p ∈ btInsert k v m → p = (k, v) ∨ p ∈ m := by
  intro m
  induction m with
  | nil =>
    intro p hp
    simp only [btInsert, List.mem_singleton] at hp
    exact Or.inl hp
  | cons q rest ih =>
    intro p hp
    obtain ⟨k', v'⟩ := q
    simp only [btInsert] at hp
    split at hp
    · rcases List.mem_cons.mp hp with h | h
      · exact Or.inl h
      · exact Or.inr h
    · split at hp
      · rcases List.mem_cons.mp hp with h | h
        · exact Or.inl h
        · exact Or.inr (List.mem_cons_of_mem _ h)
      · rcases List.mem_cons.mp hp with h | h
        · exact Or.inr (List.mem_cons.mpr (Or.inl h))
        · rcases ih p h with h' | h'
          · exact Or.inl h'
          · exact Or.inr (List.mem_cons_of_mem _ h')

theorem btInsert_sorted (k : LocationDefinition) (v : Nat) :
    ∀ m : AddressSet, SortedKeys m → SortedKeys (btInsert k v m) := by
  intro m
  induction m with
  | nil =>
    intro _
    simp [btInsert, SortedKeys]
  | cons q rest ih =>
    intro hm
    obtain ⟨k', v'⟩ := q
    rw [SortedKeys, List.pairwise_cons] at hm
    obtain ⟨hhead, htail⟩ := hm
    simp only [btInsert]
    split
    · rename_i hlt
      rw [SortedKeys, List.pairwise_cons]
      constructor
      · intro p hp
        rcases List.mem_cons.mp hp with h | h
        · subst h; exact hlt
        · exact lt_trans hlt (hhead p h)
      · rw [List.pairwise_cons]
        exact ⟨hhead, htail⟩
    · split
      · rename_i heq
        subst heq
        rw [SortedKeys, List.pairwise_cons]
        exact ⟨hhead, htail⟩
      · rename_i hnlt hne
        have hgt : k' < k := lt_of_le_of_ne (le_of_not_lt hnlt) (Ne.symm hne)
        rw [SortedKeys, List.pairwise_cons]
        constructor
        · intro p hp
          rcases btInsert_mem k v rest p hp with h | h
          · subst h; exact hgt
          · exact hhead p h
        · exact ih htail

theorem btLookup_eq_none (k : LocationDefinition) :
    ∀ m : AddressSet, (∀ p ∈ m, p.1 ≠ k) → btLookup k m = none := by
  intro m
  induction m with
  | nil => intro _; rfl
  | cons q rest ih =>
    intro h
    obtain ⟨k', v'⟩ := q
    simp only [btLookup]
    rw [if_neg, ih]
    · intro p hp
      exact h p (List.mem_cons_of_mem _ hp)
    · intro heq
      exact h (k', v') (List.mem_cons_self _ _) (by simpa using heq.symm)

/-- Two sorted maps with the same lookup function are the same list:
the iteration order of the map is determined solely by its contents. -/
theorem sorted_lookup_ext :
    ∀ m₁ m₂ : AddressSet, SortedKeys m₁ → SortedKeys m₂ →
      (∀ k, btLookup k m₁ = btLookup k m₂) → m₁ = m₂ := by
  intro m₁
  induction m₁ with
  | nil =>
    intro m₂ _ h₂ hlk
    cases m₂ with
    | nil => rfl
    | cons q rest =>
      obtain ⟨k', v'⟩ := q
      have := hlk k'
      simp [btLookup] at this
  | cons p t₁ ih =>
    intro m₂ h₁ h₂ hlk
    obtain ⟨k, v⟩ := p
    cases m₂ with
    | nil =>
      have := hlk k
      simp [btLookup] at this
    | cons q t₂ =>
      obtain ⟨k', v'⟩ := q
      rw [SortedKeys, List.pairwise_cons] at h₁ h₂
      obtain ⟨hhead₁, htail₁⟩ := h₁
      obtain ⟨hhead₂, htail₂⟩ := h₂
      have hkk : k = k' := by
        rcases lt_trichotomy k k' with hlt | heq | hgt
        · exfalso
          have hl : btLookup k ((k', v') :: t₂) = none := by
            apply btLookup_eq_none
            intro p hp
            rcases List.mem_cons.mp hp with h | h
            · subst h; exact ne_of_gt hlt
            · exact ne_of_gt (lt_trans hlt (hhead₂ p h))
          have hcontr := (hlk k).trans hl
          simp [btLookup] at hcontr
        · exact heq
        · exfalso
          have hl : btLookup k' ((k, v) :: t₁) = none := by
            apply btLookup_eq_none
            intro p hp
            rcases List.mem_cons.mp hp with h | h
            · subst h; exact ne_of_gt hgt
            · exact ne_of_gt (lt_trans hgt (hhead₁ p h))
          have hcontr := hl.symm.trans (hlk k')
          simp [btLookup] at hcontr
      subst hkk
      have hvv : v = v' := by
        have := hlk k
        simpa [btLookup] using this
      subst hvv
      congr 1
      apply ih t₂ htail₁ htail₂
      intro j
      by_cases hj : j = k
      · subst hj
        rw [btLookup_eq_none j t₁ fun p hp => ne_of_gt (hhead₁ p hp),
          btLookup_eq_none j t₂ fun p hp => ne_of_gt (hhead₂ p hp)]
      · have := hlk j
        simpa [btLookup, hj] using this

/-! ## Helper lemmas: digit folding -/

theorem foldl_digits_le (radix : Nat) (hr : 1 ≤ radix) :
    ∀ (s : CStr) (acc : Nat),
      acc ≤ s.foldl (fun a c => a * radix + (charDigit c).getD 0) acc := by
  intro s
  induction s with
  | nil => intro acc; exact le_refl _
  | cons c t ih =>
    intro acc
    rw [List.foldl_cons]
    refine le_trans ?_ (ih (acc * radix + (charDigit c).getD 0))
    calc acc = acc * 1 := (Nat.mul_one acc).symm
      _ ≤ acc * radix := Nat.mul_le_mul_left acc hr
      _ ≤ acc * radix + (charDigit c).getD 0 := Nat.le_add_right _ _

theorem fromStrRadixAux_eq_foldl (radix : Nat) (hr : 1 ≤ radix) :
    ∀ (s : CStr) (acc : Nat), validDigits radix s = true →
      s.foldl (fun a c => a * radix + (charDigit c).getD 0) acc < 2 ^ 32 →
      fromStrRadixAux radix acc s =
        some (s.foldl (fun a c => a * radix + (charDigit c).getD 0) acc) := by
  intro s
  induction s with
  | nil => intro acc _ _; rfl
  | cons c t ih =>
    intro acc hv hb
    rw [validDigits, List.all_cons, Bool.and_eq_true] at hv
    obtain ⟨hc, ht⟩ := hv
    cases hcd : charDigit c with
    | none => rw [hcd] at hc; cases hc
    | some d =>
      rw [hcd] at hc
      have hd : d < radix := of_decide_eq_true hc
      rw [List.foldl_cons] at hb ⊢
      have hgd : (charDigit c).getD 0 = d := by rw [hcd]; rfl
      rw [hgd] at hb ⊢
      have hstep : acc * radix + d < 2 ^ 32 :=
        lt_of_le_of_lt (foldl_digits_le radix hr t (acc * radix + d)) hb
      rw [fromStrRadixAux, hcd]
      simp only [if_pos hd, if_pos hstep]
      exact ih (acc * radix + d) ht hb

/-! ## Helper lemmas: textual markers -/

theorem isPrefixOf_false_of_head_ne (a b : Char) (p q s : CStr) (hab : b ≠ a)
    (h : (a :: p).isPrefixOf s = true) : (b :: q).isPrefixOf s = false := by
  cases s with
  | nil => simp [List.isPrefixOf] at h
  | cons c cs =>
    simp only [List.isPrefixOf, Bool.and_eq_true, beq_iff_eq] at h
    have hbc : (b == c) = false := beq_eq_false_iff_ne.mpr (h.1 ▸ hab)
    simp [List.isPrefixOf, hbc]

/-! ## Helper lemmas: the visitor preserves the sorted-map invariant -/

theorem processEnumType_sorted (visitorPre typeName : CStr)
    (enumerators : List Enumerator) :
    ∀ regs res, SortedKeys regs →
      processEnumType visitorPre typeName enumerators regs = some res →
      SortedKeys res := by
  intro regs res hs h
  rw [processEnumType] at h
  cases hsp : stripPre visitorPre typeName with
  | none =>
    rw [hsp] at h
    simp only [Option.bind_eq_bind', Option.none_bind'] at h
    cases h
  | some enumName =>
    rw [hsp] at h
    simp only [Option.bind_eq_bind', Option.some_bind'] at h
    cases hen : enumNameToTypes enumName with
    | none =>
      rw [hen] at h
      simp only [Option.bind_eq_bind', Option.none_bind'] at h
      cases h
    | some kd =>
      rw [hen] at h
      simp only [Option.bind_eq_bind', Option.some_bind'] at h
      obtain ⟨kind, datatype⟩ := kd
      refine foldlM_option_invariant SortedKeys _ ?_ enumerators regs res h hs
      intro acc x r hacc hx
      cases h1 : controlIndicatorNameFromFull x.identifier with
      | none =>
        simp only [h1, Option.bind_eq_bind', Option.none_bind'] at hx
        cases hx
      | some name =>
        cases h2 : x.expression with
        | none =>
          simp only [h1, h2, Option.bind_eq_bind', Option.some_bind',
            Option.none_bind'] at hx
          cases hx
        | some expr =>
          cases h3 : valueFromDiscriminant expr with
          | none =>
            simp only [h1, h2, h3, Option.bind_eq_bind', Option.some_bind',
              Option.none_bind'] at hx
            cases hx
          | some value =>
            simp only [h1, h2, h3, Option.bind_eq_bind', Option.some_bind',
              Option.pure_def, Option.some.injEq] at hx
            rw [← hx]
            exact btInsert_sorted _ _ acc hacc

theorem visitDeclaration_sorted (visitorPre : CStr) :
    ∀ regs d res, SortedKeys regs → visitDeclaration visitorPre regs d = some res →
      SortedKeys res := by
  intro regs d res hs h
  rw [visitDeclaration] at h
  split at h
  · cases hn : getTypedefName d with
    | none => rw [hn] at h; cases h; exact hs
    | some name =>
      rw [hn] at h
      refine foldlM_option_invariant SortedKeys _ ?_ d.specifiers regs res h hs
      intro acc s r hacc hstep
      cases s with
      | typeEnum enumerators => exact processEnumType_sorted _ _ _ acc r hacc hstep
      | storageTypedef => cases hstep; exact hacc
      | storageOther => cases hstep; exact hacc
      | typeOther => cases hstep; exact hacc
  · cases h
    exact hs

theorem runAddressVisitor_sorted (interfaceName : CStr) :
    ∀ decls res, runAddressVisitor interfaceName decls = some res → SortedKeys res := by
  intro decls res h
  refine foldlM_option_invariant SortedKeys _ ?_ decls [] res h (by simp [SortedKeys])
  intro acc d r hacc hstep
  exact visitDeclaration_sorted _ acc d r hacc hstep

/-! ## Helper lemmas: the signature visitor fold -/

theorem foldl_visit_some (target v : CStr) :
    ∀ ds : List InitDeclarator, ds.foldl (visitInitDeclarator target) (some v) = some v := by
  intro ds
  induction ds with
  | nil => rfl
  | cons d t ih =>
    rw [List.foldl_cons]
    have : visitInitDeclarator target (some v) d = some v := by
      rw [visitInitDeclarator, if_pos (Option.isSome_some)]
    rw [this]
    exact ih

/-! ## Helper lemmas: shapes of the generator steps -/

theorem registerStep_mem (registers : AddressSet) :
    ∀ acc e res, registerStep registers acc e = some res →
      ∀ y ∈ res, y ∈ acc ∨ y.isRegisterGroup = true := by
  intro acc e res h y hy
  obtain ⟨⟨kind, name, dt⟩, v⟩ := e
  cases kind <;>
    simp only [registerStep, generateAddressDefinition] at h
  case Control | Indicator =>
    cases hty : typeStringToType dt <;>
      simp only [hty, Option.bind_eq_bind', Option.none_bind', Option.some_bind',
        Option.pure_def, Option.some.injEq] at h
    · cases h
    · subst h
      rcases List.mem_append.mp hy with h' | h'
      · exact Or.inl h'
      · rw [List.mem_singleton.mp h']
        exact Or.inr rfl
  case ControlArray | IndicatorArray =>
    revert h
    cases hbt : btLookup { kind := AddressKind.withSize _, name := name, datatype := dt } registers with
    | none => intro h; cases h
    | some size =>
      intro h
      cases hty : typeStringToType dt <;>
        simp only [hty, Option.bind_eq_bind', Option.none_bind', Option.some_bind',
          Option.pure_def, Option.some.injEq] at h
      · cases h
      · subst h
        rcases List.mem_append.mp hy with h' | h'
        · exact Or.inl h'
        · rw [List.mem_singleton.mp h']
          exact Or.inr rfl
  case ControlArraySize | IndicatorArraySize | HostToTargetFifo | TargetToHostFifo =>
    simp only [Option.pure_def, Option.some.injEq] at h
    subst h
    exact Or.inl hy

theorem fifoStep_mem :
    ∀ acc e res, fifoStep acc e = some res →
      ∀ y ∈ res, y ∈ acc ∨ y.isFifoGroup = true := by
  intro acc e res h y hy
  obtain ⟨⟨kind, name, dt⟩, v⟩ := e
  cases kind <;>
    simp only [fifoStep, generateAddressDefinition] at h
  case HostToTargetFifo | TargetToHostFifo =>
    cases hty : typeStringToType dt <;>
      simp only [hty, Option.bind_eq_bind', Option.none_bind', Option.some_bind',
        Option.pure_def, Option.some.injEq] at h
    · cases h
    · subst h
      rcases List.mem_append.mp hy with h' | h'
      · exact Or.inl h'
      · rw [List.mem_singleton.mp h']
        exact Or.inr rfl
  case Control | Indicator | ControlArray | IndicatorArray | ControlArraySize
      | IndicatorArraySize =>
    simp only [Option.pure_def, Option.some.injEq] at h
    subst h
    exact Or.inl hy

/-! ## The claims -/

/-- Claim C1: the input enumeration `typedef enum {
NiFpga_Main_ControlU8_U8Control = 0x18002 } NiFpga_Main_ControlU8;`
processed by the address extractor with interface name `Main` yields an
`AddressSet` that maps exactly the key `LocationDefinition{kind:
Control, name: U8Control, datatype: U8}` to the value 98306 (the
hexadecimal literal 0x18002 evaluated base-independently). -/
theorem c1_round_trip_control_u8 :
    processEnumType (interfaceMarker "Main".data) "NiFpga_Main_ControlU8".data
      [⟨"NiFpga_Main_ControlU8_U8Control".data,
        some (.constant (.integer .hexadecimal "18002".data))⟩] [] =
    some [(⟨.Control, "U8Control".data, "U8".data⟩, 98306)] := by decide

/-- Claim C3: kind decoding tries array-kind markers before their
scalar counterparts: a short identifier starting with `ControlArray`
(resp. `IndicatorArray`) decodes to `ControlArray` (resp.
`IndicatorArray`), never `Control` (resp. `Indicator`); in particular
the enum type short name `ControlArrayU8` decodes to kind
`ControlArray` with residual datatype `U8`. -/
theorem c3_array_kind_specificity :
    (∀ name : CStr, "ControlArray".data.isPrefixOf name = true →
        extractTypeFromStart name = some .ControlArray) ∧
    (∀ name : CStr, "IndicatorArray".data.isPrefixOf name = true →
        extractTypeFromStart name = some .IndicatorArray) ∧
    enumNameToTypes "ControlArrayU8".data = some (.ControlArray, "U8".data) := by
  refine ⟨?_, ?_, by decide⟩
  · intro name h
    rw [extractTypeFromStart]
    rw [List.find?_cons_of_pos]
    exact h
  · intro name h
    have hI : ('I' :: "ndicatorArray".data).isPrefixOf name = true := h
    have hC : "ControlArray".data.isPrefixOf name = false :=
      isPrefixOf_false_of_head_ne 'I' 'C' "ndicatorArray".data "ontrolArray".data
        name (by decide) hI
    rw [extractTypeFromStart]
    rw [List.find?_cons_of_neg]
    · rw [List.find?_cons_of_pos]
      exact h
    · simp only [AddressKind.marker]
      simp [hC]

/-- Witness for C3 at the specification's literal inputs. -/
theorem c3_witness :
    extractTypeFromStart "ControlArrayU8_U8ControlArray".data = some .ControlArray ∧
    extractTypeFromStart "IndicatorArrayU8".data = some .IndicatorArray :=
  ⟨c3_array_kind_specificity.1 "ControlArrayU8_U8ControlArray".data (by decide),
    c3_array_kind_specificity.2.1 "IndicatorArrayU8".data (by decide)⟩

/-- Claim C9: the constant evaluator on an integer literal of any of
the four bases returns the value its digits denote in that base, and on
any expression that is not such a literal it fails fatally (modelled as
`none`) rather than returning a recoverable value. -/
theorem c9_constant_evaluator :
    (∀ (base : IntegerBase) (digits : CStr), digits ≠ [] →
        validDigits (radixOf base) digits = true →
        specDigitsValue (radixOf base) digits < 2 ^ 32 →
        valueFromDiscriminant (.constant (.integer base digits)) =
          some (specDigitsValue (radixOf base) digits)) ∧
    (∀ e : CExpression, (∀ base digits, e ≠ .constant (.integer base digits)) →
        valueFromDiscriminant e = none) := by
  constructor
  · intro base digits hne hv hb
    have hr : 1 ≤ radixOf base := by cases base <;> decide
    show fromStrRadix (radixOf base) digits = _
    rw [fromStrRadix, if_neg hne]
    exact fromStrRadixAux_eq_foldl (radixOf base) hr digits 0 hv hb
  · intro e he
    cases e with
    | constant c =>
      cases c with
      | integer base digits => exact absurd rfl (he base digits)
      | otherConstant => rfl
    | stringLiteral first rest => rfl
    | otherExpression => rfl

/-- Witness for C9: the hexadecimal literal `0x18002` and a non-literal
expression. -/
theorem c9_witness :
    valueFromDiscriminant (.constant (.integer .hexadecimal "18002".data)) =
      some (specDigitsValue (radixOf .hexadecimal) "18002".data) ∧
    valueFromDiscriminant .otherExpression = none :=
  ⟨c9_constant_evaluator.1 .hexadecimal "18002".data (by decide) (by decide) (by decide),
    c9_constant_evaluator.2 .otherExpression fun _ _ h => CExpression.noConfusion h⟩

/-- Claim C10: inside a matched interface enumeration, an enumerator
whose identifier has no underscore, or which has no explicit
initializer expression, makes the extractor panic (modelled as `none`)
instead of being skipped or reported recoverably. -/
theorem c10_enumerator_shape_required :
    ∀ (visitorPre typeName : CStr) (enumerators : List Enumerator)
      (regs : AddressSet) (e : Enumerator), e ∈ enumerators →
      (e.identifier.contains '_' = false ∨ e.expression = none) →
      processEnumType visitorPre typeName enumerators regs = none := by
  intro visitorPre typeName enumerators regs e hmem hbad
  rw [processEnumType]
  cases hsp : stripPre visitorPre typeName with
  | none => simp only [Option.bind_eq_bind', Option.none_bind']
  | some enumName =>
    simp only [Option.bind_eq_bind', Option.some_bind']
    cases hen : enumNameToTypes enumName with
    | none => simp only [Option.bind_eq_bind', Option.none_bind']
    | some kd =>
      simp only [Option.bind_eq_bind', Option.some_bind']
      obtain ⟨kind, datatype⟩ := kd
      apply foldlM_option_none _ e _ enumerators regs hmem
      intro acc
      rcases hbad with h | h
      · have hname : controlIndicatorNameFromFull e.identifier = none := by
          rw [controlIndicatorNameFromFull, rsplitOnceSnd, if_neg]
          simpa using h
        simp only [hname, Option.bind_eq_bind', Option.none_bind']
      · cases hname : controlIndicatorNameFromFull e.identifier with
        | none => simp only [hname, Option.bind_eq_bind', Option.none_bind']
        | some n =>
          simp only [hname, h, Option.bind_eq_bind', Option.some_bind',
            Option.none_bind']

/-- Witness for C10: an enumerator without an underscore, and one
without an initializer. -/
theorem c10_witness :
    processEnumType (interfaceMarker "Main".data) "NiFpga_Main_ControlU8".data
      [⟨"NoUnderscore".data, some (.constant (.integer .decimal "1".data))⟩] [] = none ∧
    processEnumType (interfaceMarker "Main".data) "NiFpga_Main_ControlU8".data
      [⟨"NiFpga_Main_ControlU8_X".data, none⟩] [] = none :=
  ⟨c10_enumerator_shape_required _ _ _ []
      ⟨"NoUnderscore".data, some (.constant (.integer .decimal "1".data))⟩
      (List.mem_singleton.mpr rfl) (Or.inl (by decide)),
    c10_enumerator_shape_required _ _ _ []
      ⟨"NiFpga_Main_ControlU8_X".data, none⟩
      (List.mem_singleton.mpr rfl) (Or.inr rfl)⟩

/-- Claim C2 fails on the code: a typedef'd enumeration whose type name
`Foo` does not carry the interface marker makes
`process_enum_type` panic on `strip_prefix(...).unwrap()` (modelled as
`none`), instead of leaving the `AddressSet` unchanged. -/
theorem c2_counterexample :
    visitDeclaration (interfaceMarker "Main".data) [] c2Declaration = none ∧
    visitDeclaration (interfaceMarker "Main".data) [] c2Declaration ≠ some [] := by
  constructor
  · decide
  · decide

/-- Claim C2, amended: a declaration that is not a typedef'd
enumeration (or has no typedef name) is silently ignored and the
`AddressSet` left unchanged; but a typedef'd enumeration whose type
name does not carry the interface marker, or whose stripped short name
starts with no candidate kind marker, makes the extractor panic
(modelled as `none`) rather than being silently ignored. -/
theorem c2_amended_prefix_mismatch_panics :
    (∀ (visitorPre : CStr) (regs : AddressSet) (d : CDeclaration),
        isTypedefDecl d = false → visitDeclaration visitorPre regs d = some regs) ∧
    (∀ (visitorPre : CStr) (regs : AddressSet) (d : CDeclaration),
        getTypedefName d = none → visitDeclaration visitorPre regs d = some regs) ∧
    (∀ (visitorPre : CStr) (regs : AddressSet) (d : CDeclaration) (name : CStr)
        (enumerators : List Enumerator),
        isTypedefDecl d = true → getTypedefName d = some name →
        DeclarationSpecifier.typeEnum enumerators ∈ d.specifiers →
        stripPre visitorPre name = none →
        visitDeclaration visitorPre regs d = none) ∧
    (∀ (visitorPre : CStr) (regs : AddressSet) (d : CDeclaration) (name short : CStr)
        (enumerators : List Enumerator),
        isTypedefDecl d = true → getTypedefName d = some name →
        DeclarationSpecifier.typeEnum enumerators ∈ d.specifiers →
        stripPre visitorPre name = some short →
        extractTypeFromStart short = none →
        visitDeclaration visitorPre regs d = none) := by
  refine ⟨?_, ?_, ?_, ?_⟩
  · intro visitorPre regs d h
    rw [visitDeclaration, if_neg]
    simp [h]
  · intro visitorPre regs d h
    rw [visitDeclaration]
    split
    · rw [h]
    · rfl
  · intro visitorPre regs d name enumerators ht hn hmem hsp
    rw [visitDeclaration, if_pos ht, hn]
    apply foldlM_option_none _ (DeclarationSpecifier.typeEnum enumerators) _ _ _ hmem
    intro acc
    show processEnumType visitorPre name enumerators acc = none
    rw [processEnumType, hsp]
    simp only [Option.bind_eq_bind', Option.none_bind']
  · intro visitorPre regs d name short enumerators ht hn hmem hsp hext
    rw [visitDeclaration, if_pos ht, hn]
    apply foldlM_option_none _ (DeclarationSpecifier.typeEnum enumerators) _ _ _ hmem
    intro acc
    show processEnumType visitorPre name enumerators acc = none
    rw [processEnumType, hsp]
    simp only [Option.bind_eq_bind', Option.some_bind']
    rw [enumNameToTypes, hext]
    simp only [Option.bind_eq_bind', Option.none_bind']

/-- Witness for the amended C2: a non-typedef declaration is ignored; a
typedef'd enumeration without the interface marker panics. -/
theorem c2_witness :
    visitDeclaration (interfaceMarker "Main".data) []
      ⟨[.storageOther], [.identifier "x".data]⟩ = some [] ∧
    visitDeclaration (interfaceMarker "Main".data) [] c2Declaration = none :=
  ⟨c2_amended_prefix_mismatch_panics.1 _ [] _ (by decide),
    c2_amended_prefix_mismatch_panics.2.2.1 _ [] c2Declaration "Foo".data
      [⟨"Foo_Bar".data, some (.constant (.integer .decimal "1".data))⟩]
      (by decide) (by decide) (by decide) (by decide)⟩

/-- Claim C7: signature extraction is first-match-wins: the first
init-declarator whose identifier equals `NiFpga_<Interface>_Signature`
and whose initializer is a string literal supplies the signature with
surrounding quote characters trimmed; once a value is captured later
declarations are ignored; a declarator whose identifier differs never
changes the state. -/
theorem c7_signature_first_match :
    (∀ (target v : CStr) (ds : List InitDeclarator),
        ds.foldl (visitInitDeclarator target) (some v) = some v) ∧
    (∀ (target : CStr) (st : Option CStr) (d : InitDeclarator),
        identifierFromInitDeclarator d ≠ some target →
        visitInitDeclarator target st d = st) ∧
    (∀ (interfaceName : CStr) (ds₁ ds₂ : List InitDeclarator)
        (d : InitDeclarator) (first : CStr) (rest : List CStr),
        (∀ d' ∈ ds₁,
          visitInitDeclarator (stringVisitorName interfaceName "Signature".data) none d'
            = none) →
        d.kind = .identifier (stringVisitorName interfaceName "Signature".data) →
        d.initializer = some (.expression (.stringLiteral first rest)) →
        runStringVisitor (stringVisitorName interfaceName "Signature".data)
          (ds₁ ++ d :: ds₂) = some (trimQuotes first)) := by
  refine ⟨foldl_visit_some, ?_, ?_⟩
  · intro target st d hne
    cases st with
    | some v => rfl
    | none =>
      cases hid : identifierFromInitDeclarator d with
      | none => simp [visitInitDeclarator, hid]
      | some name =>
        have hne' : name ≠ target := fun heq => hne (by rw [hid, heq])
        simp [visitInitDeclarator, hid, hne']
  · intro interfaceName ds₁ ds₂ d first rest
    induction ds₁ with
    | nil =>
      intro _ hkind hinit
      rw [List.nil_append, runStringVisitor, List.foldl_cons]
      have hstep : visitInitDeclarator (stringVisitorName interfaceName "Signature".data)
          none d = some (trimQuotes first) := by
        simp [visitInitDeclarator, identifierFromInitDeclarator, hkind, hinit,
          stringConstantFromInitializer]
      rw [hstep]
      exact foldl_visit_some _ _ ds₂
    | cons d' t ih =>
      intro hpre hkind hinit
      rw [List.cons_append, runStringVisitor, List.foldl_cons,
        hpre d' (List.mem_cons_self _ _)]
      exact ih (fun x hx => hpre x (List.mem_cons_of_mem _ hx)) hkind hinit

/-- Witness for C7: a homonym-free unit where a differently named
constant precedes the signature constant. -/
theorem c7_witness :
    runStringVisitor (stringVisitorName "Main".data "Signature".data)
      [⟨.identifier "NiFpga_Main_Test".data,
          some (.expression (.stringLiteral "\"AB\"".data []))⟩,
        ⟨.identifier "NiFpga_Main_Signature".data,
          some (.expression (.stringLiteral "\"E3E0\"".data []))⟩] =
      some (trimQuotes "\"E3E0\"".data) :=
  c7_signature_first_match.2.2 "Main".data
    [⟨.identifier "NiFpga_Main_Test".data,
        some (.expression (.stringLiteral "\"AB\"".data []))⟩] []
    ⟨.identifier "NiFpga_Main_Signature".data,
      some (.expression (.stringLiteral "\"E3E0\"".data []))⟩
    "\"E3E0\"".data [] (by decide) (by decide) rfl

theorem copyNonIncludeLines_eq_filter :
    ∀ lines : List CStr, copyNonIncludeLines lines =
      lines.filter fun l => !("#include".data.isPrefixOf l) := by
  intro lines
  induction lines with
  | nil => rfl
  | cons l t ih =>
    rw [copyNonIncludeLines, List.filter_cons]
    cases h : "#include".data.isPrefixOf l
    · simp only [h, Bool.false_eq_true, if_false, Bool.not_false, if_true, ih]
    · simp only [h, if_true, Bool.not_true, Bool.false_eq_true, if_false, ih]

/-- Claim C8: the header shim emits the fixed preamble followed by
every header line except those beginning with `#include`: a line is
dropped if and only if `#include` starts the line, so a line containing
`#include` elsewhere (including after leading whitespace) is preserved
unchanged. -/
theorem c8_header_shim :
    (∀ lines : List CStr, headerToTempNoIncludes lines =
        commonTypesLines ++ lines.filter fun l => !("#include".data.isPrefixOf l)) ∧
    (∀ (lines : List CStr) (l : CStr), l ∈ copyNonIncludeLines lines ↔
        l ∈ lines ∧ "#include".data.isPrefixOf l = false) ∧
    copyNonIncludeLines ["   #include \"NiFpga.h\"".data] =
      ["   #include \"NiFpga.h\"".data] ∧
    copyNonIncludeLines ["#include \"NiFpga.h\"".data] = [] := by
  refine ⟨?_, ?_, by decide, by decide⟩
  · intro lines
    rw [headerToTempNoIncludes, copyNonIncludeLines_eq_filter]
  · intro lines l
    rw [copyNonIncludeLines_eq_filter]
    rw [List.mem_filter]
    simp

/-- Claim C4: for every `ControlArray`/`IndicatorArray` definition the
registers generator looks up the size-counterpart definition of the
same name and datatype and emits an array accessor carrying that size
and the array definition's address; a missing size definition is fatal
(`expect("Array size not found.")`, modelled as `none`); `*Size`
definitions themselves never emit a declaration. -/
theorem c4_array_size_resolution :
    (∀ (registers : AddressSet) (d : LocationDefinition) (v size : Nat) (ty : RustType),
        (d.kind = .ControlArray ∨ d.kind = .IndicatorArray) →
        btLookup { d with kind := d.kind.withSize } registers = some size →
        typeStringToType d.datatype = some ty →
        ∀ tokens, registerStep registers tokens (d, v) =
          some (tokens ++ [.arrayRegister d.name ty size v])) ∧
    (∀ (registers : AddressSet) (d : LocationDefinition) (v : Nat),
        (d.kind = .ControlArray ∨ d.kind = .IndicatorArray) →
        btLookup { d with kind := d.kind.withSize } registers = none →
        (∀ tokens, registerStep registers tokens (d, v) = none) ∧
        ((d, v) ∈ registers → generateRegisterModule registers = none)) ∧
    (∀ (registers : AddressSet) (tokens : List GenDecl) (d : LocationDefinition)
        (v : Nat),
        (d.kind = .ControlArraySize ∨ d.kind = .IndicatorArraySize) →
        registerStep registers tokens (d, v) = some tokens) ∧
    generateRegisterModule c4ExampleSet =
      some [.arrayRegister "U8ControlArray".data .u8 4 0x18014] := by
  refine ⟨?_, ?_, ?_, by decide⟩
  · intro registers d v size ty hk hlk hty tokens
    obtain ⟨kind, name, dt⟩ := d
    rcases hk with hk | hk <;> simp only at hk <;> subst hk <;>
      simp only [registerStep, AddressKind.withSize] at hlk ⊢ <;>
      rw [hlk] <;>
      simp only [generateAddressDefinition, hty, Option.bind_eq_bind',
        Option.some_bind', Option.pure_def]
  · intro registers d v hk hlk
    have hstep : ∀ tokens, registerStep registers tokens (d, v) = none := by
      intro tokens
      obtain ⟨kind, name, dt⟩ := d
      rcases hk with hk | hk <;> simp only at hk <;> subst hk <;>
        simp only [registerStep, AddressKind.withSize] at hlk ⊢ <;>
        rw [hlk]
    exact ⟨hstep, fun hmem =>
      foldlM_option_none (registerStep registers) (d, v) hstep registers [] hmem⟩
  · intro registers tokens d v hk
    obtain ⟨kind, name, dt⟩ := d
    rcases hk with hk | hk <;> simp only at hk <;> subst hk <;> rfl

/-- Witness for C4: the specification's size-resolution example and a
set missing its size counterpart. -/
theorem c4_witness :
    registerStep c4ExampleSet []
      (⟨.ControlArray, "U8ControlArray".data, "U8".data⟩, 0x18014) =
      some ([] ++ [.arrayRegister "U8ControlArray".data .u8 4 0x18014]) ∧
    generateRegisterModule
      [(⟨.ControlArray, "U8ControlArray".data, "U8".data⟩, 0x18014)] = none :=
  ⟨c4_array_size_resolution.1 c4ExampleSet
      ⟨.ControlArray, "U8ControlArray".data, "U8".data⟩ 0x18014 4 .u8
      (Or.inl rfl) (by decide) (by decide) [],
    (c4_array_size_resolution.2.1
        [(⟨.ControlArray, "U8ControlArray".data, "U8".data⟩, 0x18014)]
        ⟨.ControlArray, "U8ControlArray".data, "U8".data⟩ 0x18014
        (Or.inl rfl) (by decide)).2 (List.mem_singleton.mpr rfl)⟩

/-- Claim C6: the two generated output groups partition by kind: FIFO
definitions contribute nothing to the registers group, non-FIFO
definitions contribute nothing to the FIFOs group, every
`HostToTargetFifo` definition emits a `WriteFifo` accessor and every
`TargetToHostFifo` definition a `ReadFifo` accessor, and every emitted
declaration lies in its group's shapes. -/
theorem c6_group_partition :
    (∀ (registers : AddressSet) (tokens : List GenDecl) (d : LocationDefinition)
        (v : Nat),
        (d.kind = .HostToTargetFifo ∨ d.kind = .TargetToHostFifo) →
        registerStep registers tokens (d, v) = some tokens) ∧
    (∀ (tokens : List GenDecl) (d : LocationDefinition) (v : Nat),
        d.kind ≠ .HostToTargetFifo → d.kind ≠ .TargetToHostFifo →
        fifoStep tokens (d, v) = some tokens) ∧
    (∀ (tokens : List GenDecl) (d : LocationDefinition) (v : Nat) (ty : RustType),
        d.kind = .HostToTargetFifo → typeStringToType d.datatype = some ty →
        fifoStep tokens (d, v) = some (tokens ++ [.writeFifo d.name ty v])) ∧
    (∀ (tokens : List GenDecl) (d : LocationDefinition) (v : Nat) (ty : RustType),
        d.kind = .TargetToHostFifo → typeStringToType d.datatype = some ty →
        fifoStep tokens (d, v) = some (tokens ++ [.readFifo d.name ty v])) ∧
    (∀ (registers : AddressSet) (out : List GenDecl),
        generateRegisterModule registers = some out →
        ∀ y ∈ out, y.isRegisterGroup = true) ∧
    (∀ (addresses : AddressSet) (out : List GenDecl),
        generateFifoModule addresses = some out → ∀ y ∈ out, y.isFifoGroup = true) := by
  refine ⟨?_, ?_, ?_, ?_, ?_, ?_⟩
  · intro registers tokens d v hk
    obtain ⟨kind, name, dt⟩ := d
    rcases hk with hk | hk <;> simp only at hk <;> subst hk <;> rfl
  · intro tokens d v h1 h2
    obtain ⟨kind, name, dt⟩ := d
    simp only at h1 h2
    cases kind
    case HostToTargetFifo => exact absurd rfl h1
    case TargetToHostFifo => exact absurd rfl h2
    all_goals rfl
  · intro tokens d v ty hk hty
    obtain ⟨kind, name, dt⟩ := d
    simp only at hk hty
    subst hk
    simp only [fifoStep, generateAddressDefinition, hty, Option.bind_eq_bind',
      Option.some_bind', Option.pure_def]
  · intro tokens d v ty hk hty
    obtain ⟨kind, name, dt⟩ := d
    simp only at hk hty
    subst hk
    simp only [fifoStep, generateAddressDefinition, hty, Option.bind_eq_bind',
      Option.some_bind', Option.pure_def]
  · intro registers out h
    exact foldlM_option_mem _ _ (registerStep_mem registers) registers [] out h
      (by intro y hy; cases hy)
  · intro addresses out h
    exact foldlM_option_mem _ _ fifoStep_mem addresses [] out h
      (by intro y hy; cases hy)

/-- Witness for C6: one FIFO entry of each direction, skipped by the
registers generator and emitted by the FIFOs generator. -/
theorem c6_witness :
    registerStep [] [] (⟨.HostToTargetFifo, "First".data, "U8".data⟩, 0) = some [] ∧
    fifoStep [] (⟨.Control, "A".data, "U8".data⟩, 1) = some [] ∧
    fifoStep [] (⟨.HostToTargetFifo, "First".data, "U8".data⟩, 0) =
      some ([] ++ [.writeFifo "First".data .u8 0]) ∧
    fifoStep [] (⟨.TargetToHostFifo, "Second".data, "U16".data⟩, 1) =
      some ([] ++ [.readFifo "Second".data .u16 1]) :=
  ⟨c6_group_partition.1 [] [] ⟨.HostToTargetFifo, "First".data, "U8".data⟩ 0
      (Or.inl rfl),
    c6_group_partition.2.1 [] ⟨.Control, "A".data, "U8".data⟩ 1
      (by decide) (by decide),
    c6_group_partition.2.2.1 [] ⟨.HostToTargetFifo, "First".data, "U8".data⟩ 0 .u8
      rfl (by decide),
    c6_group_partition.2.2.2.1 [] ⟨.TargetToHostFifo, "Second".data, "U16".data⟩ 1
      .u16 rfl (by decide)⟩

/-- Claim C5: the pipeline is deterministic on byte-identical
preprocessed input (equal `AddressSet`s and equal generated output),
the visitor's `AddressSet` is always sorted by the
`LocationDefinition` key, and a sorted map's entry order is determined
solely by its contents (two sorted maps with the same lookups are
identical), never by insertion order. -/
theorem c5_determinism_and_stable_order :
    (∀ (interfaceName : CStr) (decls₁ decls₂ : List CDeclaration), decls₁ = decls₂ →
        runAddressVisitor interfaceName decls₁ = runAddressVisitor interfaceName decls₂ ∧
        (runAddressVisitor interfaceName decls₁).bind generateRustOutput =
          (runAddressVisitor interfaceName decls₂).bind generateRustOutput) ∧
    (∀ (interfaceName : CStr) (decls : List CDeclaration) (regs : AddressSet),
        runAddressVisitor interfaceName decls = some regs → SortedKeys regs) ∧
    (∀ m₁ m₂ : AddressSet, SortedKeys m₁ → SortedKeys m₂ →
        (∀ k, btLookup k m₁ = btLookup k m₂) → m₁ = m₂) :=
  ⟨fun _ _ _ h => by subst h; exact ⟨rfl, rfl⟩,
    fun interfaceName => runAddressVisitor_sorted interfaceName,
    sorted_lookup_ext⟩

/-- Witness for C5 at concrete inputs. -/
theorem c5_witness :
    ((runAddressVisitor "Main".data [] = runAddressVisitor "Main".data []) ∧
      (runAddressVisitor "Main".data []).bind generateRustOutput =
        (runAddressVisitor "Main".data []).bind generateRustOutput) ∧
    SortedKeys ([] : AddressSet) ∧
    ([(⟨.Control, "A".data, "U8".data⟩, 1), (⟨.Indicator, "B".data, "U8".data⟩, 2)] :
        AddressSet) =
      [(⟨.Control, "A".data, "U8".data⟩, 1), (⟨.Indicator, "B".data, "U8".data⟩, 2)] :=
  ⟨c5_determinism_and_stable_order.1 "Main".data [] [] rfl,
    c5_determinism_and_stable_order.2.1 "Main".data [] [] rfl,
    c5_determinism_and_stable_order.2.2
      [(⟨.Control, "A".data, "U8".data⟩, 1), (⟨.Indicator, "B".data, "U8".data⟩, 2)]
      [(⟨.Control, "A".data, "U8".data⟩, 1), (⟨.Indicator, "B".data, "U8".data⟩, 2)]
      (by decide) (by decide) (fun _ => rfl)⟩
